import Mathlib

/-!
Shallow embedding of the `gittag` Go package (afeiship/go-git-tag).

The package is a façade over the external `git` executable: every operation
builds a fixed argument list, spawns one process, and maps its exit status
(and, for listing, its captured stdout) to a result.  We embed:

- `GitCmd`: the five invocation shapes the package ever issues;
- `ExecResult`: exit status plus captured stdout of one invocation;
- `World`: the external environment, a git-repository state together with a
  step function giving the outcome of each invocation (the step function may
  inject failures, which the source handles);
- the library operations (`CreateLocal`, `CreateRemote`, `CreateTag`,
  `DeleteLocal`, `DeleteRemote`, `DeleteTag`, `FindOne`, `FindMany`,
  `DeleteLocalAll`, `DeleteRemoteAll`, `DeleteAllTags`), each translated
  line by line from the Go source, returning the Go result, the world after
  the call, and the trace of invocations issued in order;
- `gitStep`: a model of the external git tool itself (tag creation,
  deletion, push, and `tag -l` glob listing), used for the claims that
  quantify over repository states.
-/

namespace GitTag

/-- The five external invocation shapes issued by the package
(`git tag -a <name> -m <msg>`, `git push origin <name>`, `git tag -d <name>`,
`git push origin --delete <name>`, `git tag -l <pattern>`). -/
inductive GitCmd where
  | tagA (tagName tagMessage : String)
  | pushTag (tagName : String)
  | tagD (tagName : String)
  | pushDelete (tagName : String)
  | tagL (pat : String)
  deriving DecidableEq, Repr

/-- Outcome of one external invocation: whether the process exited with
status zero, and its captured standard output (meaningful only for the
listing invocation, which the Go code runs with `cmd.Output()`). -/
structure ExecResult where
  exitOk : Bool
  output : String
  deriving DecidableEq, Repr

/-- Errors returned by the package, one constructor per distinct error the
Go source builds with `fmt.Errorf`.  Wrapping constructors carry the failed
invocation (the underlying process error) or the offending tag name plus
the inner error, mirroring the `%v` wrapping in the source. -/
inductive GitTagError where
  | creationError (failed : GitCmd)
  | pushError (failed : GitCmd)
  | deletionError (failed : GitCmd)
  | remoteDeletionError (failed : GitCmd)
  | findError (failed : GitCmd)
  | notFoundError
  | bulkLocalError (tagName : String) (inner : GitTagError)
  | bulkRemoteError (tagName : String) (inner : GitTagError)
  deriving DecidableEq, Repr

/-- The spec's error taxonomy groups "a listing query returned zero
matches" and "the listing process itself failed" into one NotFoundError
category (spec section 7, by cause rather than by concrete type). -/
def isNotFound : GitTagError → Bool
  | GitTagError.findError _ => true
  | GitTagError.notFoundError => true
  | _ => false

/-- The spec's WrappedBulkError category: a single element of a bulk
delete failed; wraps the element's own error with the offending tag. -/
def isWrappedBulk : GitTagError → Bool
  | GitTagError.bulkLocalError _ _ => true
  | GitTagError.bulkRemoteError _ _ => true
  | _ => false

/-- State of the external git world: the local repository's tags (in the
order the external tool would list them) and the remote's tags. -/
structure GitState where
  localTags : List String
  remoteTags : List String
  deriving DecidableEq, Repr

/-- The external environment: current git state plus the semantics of one
invocation.  Keeping the step function abstract lets theorems quantify over
environments (including ones that fail arbitrary invocations), while
concrete instantiations stay executable. -/
structure World where
  state : GitState
  step : GitState → GitCmd → ExecResult × GitState

/-- Issue one external invocation: ask the step function for the outcome
and advance the state. -/
def World.run (w : World) (c : GitCmd) : ExecResult × World :=
  ((w.step w.state c).1, { w with state := (w.step w.state c).2 })

/-! ### String helpers mirroring the Go standard library calls used -/

/-- Whitespace predicate of Go's `unicode.IsSpace` restricted to the code
points `strings.TrimSpace` actually meets here (ASCII whitespace plus
NEL and NBSP). -/
def goIsSpace (c : Char) : Bool :=
  c == ' ' || c == '\t' || c == '\n' || c == '\r' ||
  c == '\x0b' || c == '\x0c' || c == '\x85' || c == '\xa0'

/-- Go's `strings.TrimSpace`: drop whitespace from both ends. -/
def trimSpace (s : String) : String :=
  String.mk (((s.toList.dropWhile goIsSpace).reverse.dropWhile goIsSpace).reverse)

/-- Split a character list on a separator character; like Go's
`strings.Split`, the result always has at least one (possibly empty)
group, and splitting the empty input yields one empty group. -/
def splitOnChar (sep : Char) : List Char → List (List Char)
  | [] => [[]]
  | c :: cs =>
    if c == sep then [] :: splitOnChar sep cs
    else
      match splitOnChar sep cs with
      | [] => [[c]]
      | g :: gs => (c :: g) :: gs

/-- Go's `strings.Split(s, "\n")`. -/
def splitNewline (s : String) : List String :=
  (splitOnChar '\n' s.toList).map String.mk

/-- Join lines with newline separators (used by the git model to render
`git tag -l` output, one tag per line). -/
def joinLines : List String → String
  | [] => ""
  | [x] => x
  | x :: y :: xs => x ++ "\n" ++ joinLines (y :: xs)

/-! ### The library operations, translated from the Go source -/

/-- Annotation computed by `CreateLocal`: the first message if one is given
and non-empty, otherwise the default `"chore(release): " ++ tagName`. -/
def tagMessageOf (tagName : String) (message : List String) : String :=
  let tagMessage := "chore(release): " ++ tagName
  if message.length > 0 && message.headD "" != "" then message.headD ""
  else tagMessage

/-- Go `CreateLocal(tagName, message...)`: run
`git tag -a tagName -m tagMessage`; on non-zero exit return the creation
error wrapping the process error. -/
def CreateLocal (w : World) (tagName : String) (message : List String) :
    Option GitTagError × World × List GitCmd :=
  let c := GitCmd.tagA tagName (tagMessageOf tagName message)
  let r := (w.run c).1
  let w2 := (w.run c).2
  if r.exitOk then (none, w2, [c])
  else (some (GitTagError.creationError c), w2, [c])

/-- Go `CreateRemote(tagName)`: run `git push origin tagName`. -/
def CreateRemote (w : World) (tagName : String) :
    Option GitTagError × World × List GitCmd :=
  let c := GitCmd.pushTag tagName
  let r := (w.run c).1
  let w2 := (w.run c).2
  if r.exitOk then (none, w2, [c])
  else (some (GitTagError.pushError c), w2, [c])

/-- Go `CreateTag(tagName, message...)`: `CreateLocal`, then on success
`CreateRemote`; the first failure is returned. -/
def CreateTag (w : World) (tagName : String) (message : List String) :
    Option GitTagError × World × List GitCmd :=
  let l := CreateLocal w tagName message
  match l.1 with
  | some e => (some e, l.2.1, l.2.2)
  | none =>
    let r := CreateRemote l.2.1 tagName
    (r.1, r.2.1, l.2.2 ++ r.2.2)

/-- Go `DeleteLocal(tagName)`: run `git tag -d tagName`. -/
def DeleteLocal (w : World) (tagName : String) :
    Option GitTagError × World × List GitCmd :=
  let c := GitCmd.tagD tagName
  let r := (w.run c).1
  let w2 := (w.run c).2
  if r.exitOk then (none, w2, [c])
  else (some (GitTagError.deletionError c), w2, [c])

/-- Go `DeleteRemote(tagName)`: run `git push origin --delete tagName`. -/
def DeleteRemote (w : World) (tagName : String) :
    Option GitTagError × World × List GitCmd :=
  let c := GitCmd.pushDelete tagName
  let r := (w.run c).1
  let w2 := (w.run c).2
  if r.exitOk then (none, w2, [c])
  else (some (GitTagError.remoteDeletionError c), w2, [c])

/-- Go `DeleteTag(tagName)`: `DeleteLocal`, then on success `DeleteRemote`;
the first failure is returned unchanged. -/
def DeleteTag (w : World) (tagName : String) :
    Option GitTagError × World × List GitCmd :=
  let l := DeleteLocal w tagName
  match l.1 with
  | some e => (some e, l.2.1, l.2.2)
  | none =>
    let r := DeleteRemote l.2.1 tagName
    (r.1, r.2.1, l.2.2 ++ r.2.2)

/-- Go `FindMany(pattern)`: run `git tag -l pat` capturing stdout; on
process failure return the find error; otherwise trim, split on newlines,
and report not-found when the result is empty or a lone empty string. -/
def FindMany (w : World) (pat : String) :
    (List String × Option GitTagError) × World × List GitCmd :=
  let c := GitCmd.tagL pat
  let r := (w.run c).1
  let w2 := (w.run c).2
  if r.exitOk then
    let tags := splitNewline (trimSpace r.output)
    if tags.isEmpty || (tags.length == 1 && tags.headD "" == "") then
      (([], some GitTagError.notFoundError), w2, [c])
    else ((tags, none), w2, [c])
  else (([], some (GitTagError.findError c)), w2, [c])

/-- Go `FindOne(pattern)`: same listing and parsing as `FindMany`, but
return only the first entry. -/
def FindOne (w : World) (pat : String) :
    (String × Option GitTagError) × World × List GitCmd :=
  let c := GitCmd.tagL pat
  let r := (w.run c).1
  let w2 := (w.run c).2
  if r.exitOk then
    let tags := splitNewline (trimSpace r.output)
    if tags.isEmpty || (tags.length == 1 && tags.headD "" == "") then
      (("", some GitTagError.notFoundError), w2, [c])
    else ((tags.headD "", none), w2, [c])
  else (("", some (GitTagError.findError c)), w2, [c])

/-- The loop body of Go `DeleteLocalAll`: delete each resolved tag in
order, aborting on the first failure with the wrapped bulk error naming
the offending tag. -/
def deleteLocalEach (w : World) (tags : List String) :
    Option GitTagError × World × List GitCmd :=
  match tags with
  | [] => (none, w, [])
  | t :: rest =>
    let d := DeleteLocal w t
    match d.1 with
    | some e => (some (GitTagError.bulkLocalError t e), d.2.1, d.2.2)
    | none =>
      let k := deleteLocalEach d.2.1 rest
      (k.1, k.2.1, d.2.2 ++ k.2.2)

/-- The loop body of Go `DeleteRemoteAll`, analogous to
`deleteLocalEach`. -/
def deleteRemoteEach (w : World) (tags : List String) :
    Option GitTagError × World × List GitCmd :=
  match tags with
  | [] => (none, w, [])
  | t :: rest =>
    let d := DeleteRemote w t
    match d.1 with
    | some e => (some (GitTagError.bulkRemoteError t e), d.2.1, d.2.2)
    | none =>
      let k := deleteRemoteEach d.2.1 rest
      (k.1, k.2.1, d.2.2 ++ k.2.2)

/-- Go `DeleteLocalAll(pattern)`: resolve via `FindMany`; any resolution
failure (including no matches) is swallowed as success; otherwise delete
each resolved name locally in order. -/
def DeleteLocalAll (w : World) (pat : String) :
    Option GitTagError × World × List GitCmd :=
  let f := FindMany w pat
  match f.1.2 with
  | some _ => (none, f.2.1, f.2.2)
  | none =>
    let k := deleteLocalEach f.2.1 f.1.1
    (k.1, k.2.1, f.2.2 ++ k.2.2)

/-- Go `DeleteRemoteAll(pattern)`: resolve via `FindMany` (against the
local repository); any resolution failure is swallowed as success;
otherwise delete each resolved name on the remote in order. -/
def DeleteRemoteAll (w : World) (pat : String) :
    Option GitTagError × World × List GitCmd :=
  let f := FindMany w pat
  match f.1.2 with
  | some _ => (none, f.2.1, f.2.2)
  | none =>
    let k := deleteRemoteEach f.2.1 f.1.1
    (k.1, k.2.1, f.2.2 ++ k.2.2)

/-- Go `DeleteAllTags()`: `DeleteLocalAll "*"`, then on success
`DeleteRemoteAll "*"`. -/
def DeleteAllTags (w : World) :
    Option GitTagError × World × List GitCmd :=
  let l := DeleteLocalAll w "*"
  match l.1 with
  | some e => (some e, l.2.1, l.2.2)
  | none =>
    let r := DeleteRemoteAll l.2.1 "*"
    (r.1, r.2.1, l.2.2 ++ r.2.2)

/-! ### Model of the external git tool (spec section 6) -/

/-- Does `f` hold of some suffix of the list (the list itself and the
empty suffix included)? -/
def anySuffix (f : List Char → Bool) : List Char → Bool
  | [] => f []
  | c :: cs => f (c :: cs) || anySuffix f cs

/-- Glob matching as the external tool's `tag -l` performs it: a star
matches any (possibly empty) run of characters, a question mark matches
exactly one character, every other pattern character matches itself. -/
def globMatchL : List Char → List Char → Bool
  | [], cs => cs.isEmpty
  | p :: ps, cs =>
    if p == '*' then anySuffix (fun t => globMatchL ps t) cs
    else
      match cs with
      | [] => false
      | c :: cs2 => if p == '?' then globMatchL ps cs2
                    else p == c && globMatchL ps cs2

/-- Glob matching on strings. -/
def globMatch (pat s : String) : Bool :=
  globMatchL pat.toList s.toList

/-- Model of the external git executable, per the invocation table of spec
section 6: creating an annotated tag fails when the name already exists;
deleting a tag fails when it does not exist; pushing a tag requires it to
exist locally; deleting a remote tag requires it to exist on the remote;
listing prints the matching local tags one per line and always exits
cleanly. -/
def gitStep (s : GitState) (c : GitCmd) : ExecResult × GitState :=
  match c with
  | GitCmd.tagA tagName _ =>
    if s.localTags.contains tagName then (⟨false, ""⟩, s)
    else (⟨true, ""⟩, { s with localTags := s.localTags ++ [tagName] })
  | GitCmd.pushTag tagName =>
    if s.localTags.contains tagName then
      (⟨true, ""⟩,
        { s with remoteTags :=
            if s.remoteTags.contains tagName then s.remoteTags
            else s.remoteTags ++ [tagName] })
    else (⟨false, ""⟩, s)
  | GitCmd.tagD tagName =>
    if s.localTags.contains tagName then
      (⟨true, ""⟩, { s with localTags := s.localTags.filter (fun x => !(x == tagName)) })
    else (⟨false, ""⟩, s)
  | GitCmd.pushDelete tagName =>
    if s.remoteTags.contains tagName then
      (⟨true, ""⟩, { s with remoteTags := s.remoteTags.filter (fun x => !(x == tagName)) })
    else (⟨false, ""⟩, s)
  | GitCmd.tagL pat =>
    (⟨true, joinLines (s.localTags.filter (fun x => globMatch pat x))⟩, s)

/-- The fully honest git environment starting from a given state. -/
def gitWorld (s : GitState) : World := ⟨s, gitStep⟩

/-- A git environment in which every push of a tag to the remote fails
(for example, the remote is unreachable); all other invocations behave
as `gitStep`. -/
def failPushStep (s : GitState) (c : GitCmd) : ExecResult × GitState :=
  match c with
  | GitCmd.pushTag _ => (⟨false, ""⟩, s)
  | _ => gitStep s c

/-- Tag names the external tool accepts (`git check-ref-format` rejects
whitespace, `*`, `?`, `[`, `\` and the empty name; this is the fragment
the claims need). -/
def validTagName (t : String) : Bool :=
  t != "" && t.toList.all (fun c =>
    !goIsSpace c && !(c == '*') && !(c == '?') && !(c == '[') && !(c == '\\'))

/-! ### Helper lemmas -/

lemma CreateLocal_trace (w : World) (t : String) (m : List String) :
    (CreateLocal w t m).2.2 = [GitCmd.tagA t (tagMessageOf t m)] := by
  simp only [CreateLocal]
  split <;> rfl

lemma CreateRemote_trace (w : World) (t : String) :
    (CreateRemote w t).2.2 = [GitCmd.pushTag t] := by
  simp only [CreateRemote]
  split <;> rfl

lemma DeleteLocal_trace (w : World) (t : String) :
    (DeleteLocal w t).2.2 = [GitCmd.tagD t] := by
  simp only [DeleteLocal]
  split <;> rfl

lemma DeleteRemote_trace (w : World) (t : String) :
    (DeleteRemote w t).2.2 = [GitCmd.pushDelete t] := by
  simp only [DeleteRemote]
  split <;> rfl

lemma FindMany_trace (w : World) (p : String) :
    (FindMany w p).2.2 = [GitCmd.tagL p] := by
  simp only [FindMany]
  split
  · split <;> rfl
  · rfl

lemma FindOne_trace (w : World) (p : String) :
    (FindOne w p).2.2 = [GitCmd.tagL p] := by
  simp only [FindOne]
  split
  · split <;> rfl
  · rfl

/-! ### Claim theorems -/

/-- C1: the claim says that from any state where local and remote each hold
at least one tag and every external invocation succeeds, `DeleteAllTags`
returns success and afterwards no tag remains locally nor on the remote.
The code violates this: with local tag `v1.0.0` and remote tag `v1.0.0`,
every issued invocation succeeds and the call returns success with the
local side emptied, yet the remote tag survives, because the remote pass
resolves names from the local repository, which the local pass has already
emptied — the trace shows no remote-delete invocation is ever issued. -/
theorem deleteAllTags_leaves_remote_tags :
    (DeleteAllTags (gitWorld ⟨["v1.0.0"], ["v1.0.0"]⟩)).1 = none ∧
    (DeleteAllTags (gitWorld ⟨["v1.0.0"], ["v1.0.0"]⟩)).2.1.state.localTags = [] ∧
    (DeleteAllTags (gitWorld ⟨["v1.0.0"], ["v1.0.0"]⟩)).2.1.state.remoteTags = ["v1.0.0"] ∧
    (DeleteAllTags (gitWorld ⟨["v1.0.0"], ["v1.0.0"]⟩)).2.2 =
      [GitCmd.tagL "*", GitCmd.tagD "v1.0.0", GitCmd.tagL "*"] := by
  decide

/-- C4: `CreateLocal t` with no message argument, or with an empty-string
message, issues the create-annotated-tag invocation with annotation
`"chore(release): " ++ t`; with a non-empty message `m` it issues it with
annotation exactly `m`.  Stated over the trace of external invocations. -/
theorem CreateLocal_annotation (w : World) (t m : String) (hm : m ≠ "") :
    (CreateLocal w t []).2.2 = [GitCmd.tagA t ("chore(release): " ++ t)] ∧
    (CreateLocal w t [""]).2.2 = [GitCmd.tagA t ("chore(release): " ++ t)] ∧
    (CreateLocal w t [m]).2.2 = [GitCmd.tagA t m] := by
  refine ⟨?_, ?_, ?_⟩ <;>
    rw [CreateLocal_trace] <;>
    simp [tagMessageOf, hm]

theorem CreateLocal_annotation_witness :
    (CreateLocal (gitWorld ⟨[], []⟩) "v1.0.0" []).2.2 =
      [GitCmd.tagA "v1.0.0" ("chore(release): " ++ "v1.0.0")] ∧
    (CreateLocal (gitWorld ⟨[], []⟩) "v1.0.0" [""]).2.2 =
      [GitCmd.tagA "v1.0.0" ("chore(release): " ++ "v1.0.0")] ∧
    (CreateLocal (gitWorld ⟨[], []⟩) "v1.0.0" ["Major release"]).2.2 =
      [GitCmd.tagA "v1.0.0" "Major release"] :=
  CreateLocal_annotation (gitWorld ⟨[], []⟩) "v1.0.0" "Major release" (by decide)

/-- C8: `CreateLocal` succeeds exactly when the external create-tag process
exits cleanly, and on a non-zero exit it returns the creation error
wrapping the failed invocation. -/
theorem CreateLocal_error_spec (w : World) (t : String) (msg : List String) :
    ((CreateLocal w t msg).1 = none ↔
      (w.step w.state (GitCmd.tagA t (tagMessageOf t msg))).1.exitOk = true) ∧
    ((w.step w.state (GitCmd.tagA t (tagMessageOf t msg))).1.exitOk = false →
      (CreateLocal w t msg).1 =
        some (GitTagError.creationError (GitCmd.tagA t (tagMessageOf t msg)))) := by
  constructor
  · simp only [CreateLocal, World.run]
    split <;> simp_all
  · intro hfail
    simp only [CreateLocal, World.run]
    split <;> simp_all

theorem CreateLocal_error_spec_witness :
    (CreateLocal (gitWorld ⟨["v1"], []⟩) "v1" []).1 =
      some (GitTagError.creationError (GitCmd.tagA "v1" (tagMessageOf "v1" []))) :=
  (CreateLocal_error_spec (gitWorld ⟨["v1"], []⟩) "v1" []).2 (by decide)

/-- C9: `DeleteTag` runs `DeleteLocal` first; when it fails, the failure is
returned unchanged and no remote invocation is issued; when it succeeds,
`DeleteRemote` runs next and its result is returned unchanged. -/
theorem DeleteTag_short_circuit (w : World) (t : String) :
    ((DeleteLocal w t).1 ≠ none →
      (DeleteTag w t).1 = (DeleteLocal w t).1 ∧
      (DeleteTag w t).2.2 = [GitCmd.tagD t]) ∧
    ((DeleteLocal w t).1 = none →
      (DeleteTag w t).1 = (DeleteRemote (DeleteLocal w t).2.1 t).1 ∧
      (DeleteTag w t).2.2 = [GitCmd.tagD t, GitCmd.pushDelete t]) := by
  constructor
  · intro hne
    cases hd : (DeleteLocal w t).1 with
    | none => exact absurd hd hne
    | some e =>
      constructor
      · simp [DeleteTag, hd]
      · simp [DeleteTag, hd, DeleteLocal_trace]
  · intro hd
    constructor
    · simp [DeleteTag, hd]
    · simp [DeleteTag, hd, DeleteLocal_trace, DeleteRemote_trace]

theorem DeleteTag_short_circuit_witness :
    (DeleteTag (gitWorld ⟨["v1"], ["v1"]⟩) "v1").1 =
      (DeleteRemote (DeleteLocal (gitWorld ⟨["v1"], ["v1"]⟩) "v1").2.1 "v1").1 ∧
    (DeleteTag (gitWorld ⟨["v1"], ["v1"]⟩) "v1").2.2 =
      [GitCmd.tagD "v1", GitCmd.pushDelete "v1"] :=
  (DeleteTag_short_circuit (gitWorld ⟨["v1"], ["v1"]⟩) "v1").2 (by decide)

/-- C5: `CreateTag` runs `CreateLocal` first and `CreateRemote` only on
success, returning the first failure.  In the environment where every
remote push fails, starting from a state not containing the tag, the call
returns the push error while the final state still holds the freshly
created local tag — no rollback happens.  The remaining conjuncts state
the control flow over any environment: when `CreateLocal` fails, its error
is returned and no push invocation is issued; when it succeeds, the call
returns whatever `CreateRemote` then returns. -/
theorem CreateTag_no_rollback (s : GitState) (t : String) (msg : List String)
    (hfresh : s.localTags.contains t = false) :
    ((CreateTag ⟨s, failPushStep⟩ t msg).1 =
        some (GitTagError.pushError (GitCmd.pushTag t)) ∧
      (CreateTag ⟨s, failPushStep⟩ t msg).2.2 =
        [GitCmd.tagA t (tagMessageOf t msg), GitCmd.pushTag t] ∧
      (CreateTag ⟨s, failPushStep⟩ t msg).2.1.state.localTags =
        s.localTags ++ [t]) ∧
    (∀ (w : World) (e : GitTagError), (CreateLocal w t msg).1 = some e →
      (CreateTag w t msg).1 = some e ∧
      (CreateTag w t msg).2.2 = [GitCmd.tagA t (tagMessageOf t msg)]) ∧
    (∀ (w : World), (CreateLocal w t msg).1 = none →
      (CreateTag w t msg).1 = (CreateRemote (CreateLocal w t msg).2.1 t).1) := by
  have hf : ¬t ∈ s.localTags := by simpa using hfresh
  refine ⟨?_, ?_, ?_⟩
  · refine ⟨?_, ?_, ?_⟩ <;>
      simp [CreateTag, CreateLocal, CreateRemote, World.run, failPushStep, gitStep, hf]
  · intro w e he
    constructor
    · simp [CreateTag, he]
    · simp [CreateTag, he, CreateLocal_trace]
  · intro w he
    simp [CreateTag, he]

theorem CreateTag_no_rollback_witness :
    (CreateTag ⟨⟨[], []⟩, failPushStep⟩ "v1.0.0" []).1 =
      some (GitTagError.pushError (GitCmd.pushTag "v1.0.0")) ∧
    (CreateTag ⟨⟨[], []⟩, failPushStep⟩ "v1.0.0" []).2.2 =
      [GitCmd.tagA "v1.0.0" (tagMessageOf "v1.0.0" []), GitCmd.pushTag "v1.0.0"] ∧
    (CreateTag ⟨⟨[], []⟩, failPushStep⟩ "v1.0.0" []).2.1.state.localTags =
      [] ++ ["v1.0.0"] :=
  (CreateTag_no_rollback ⟨[], []⟩ "v1.0.0" [] (by decide)).1


/-- Behaviour of the bulk local-deletion loop: either every tag in the
list is deleted in order, or the loop stops at the first failing tag with
the wrapped bulk error naming it, having issued delete invocations for
exactly the tags up to and including the failing one. -/
lemma deleteLocalEach_spec (tags : List String) (w : World) :
    ((deleteLocalEach w tags).1 = none ∧
      (deleteLocalEach w tags).2.2 = tags.map GitCmd.tagD) ∨
    (∃ k : Fin tags.length, ∃ e,
      (deleteLocalEach w tags).1 =
        some (GitTagError.bulkLocalError (tags.get k) e) ∧
      (deleteLocalEach w tags).2.2 = (tags.take (k.1 + 1)).map GitCmd.tagD) := by
  induction tags generalizing w with
  | nil => exact Or.inl ⟨rfl, rfl⟩
  | cons t rest ih =>
    cases hd : (DeleteLocal w t).1 with
    | some e =>
      refine Or.inr ⟨⟨0, by simp⟩, e, ?_, ?_⟩ <;>
        simp [deleteLocalEach, hd, DeleteLocal_trace]
    | none =>
      rcases ih (DeleteLocal w t).2.1 with ⟨h1, h2⟩ | ⟨k, e, h1, h2⟩
      · exact Or.inl ⟨by simp [deleteLocalEach, hd, h1],
          by simp [deleteLocalEach, hd, h1, h2, DeleteLocal_trace]⟩
      · refine Or.inr ⟨⟨k.1 + 1, by simp [Nat.succ_lt_succ k.2]⟩, e, ?_, ?_⟩
        · simpa [deleteLocalEach, hd] using h1
        · simp [deleteLocalEach, hd, h2, DeleteLocal_trace, List.take_succ_cons]


/-- C2: `DeleteLocalAll p` first resolves the pattern, then issues local
delete invocations for exactly the names `FindMany p` returned at call
time, in the same order; either all succeed and the call succeeds, or it
stops at the first failing name `k`, returning the wrapped bulk error
naming that tag, with delete invocations issued only for names up to and
including the `k`-th. -/
theorem DeleteLocalAll_exact_sequence (w : World) (p : String)
    (h : (FindMany w p).1.2 = none) :
    ((DeleteLocalAll w p).1 = none ∧
      (DeleteLocalAll w p).2.2 =
        GitCmd.tagL p :: (FindMany w p).1.1.map GitCmd.tagD) ∨
    (∃ k : Fin (FindMany w p).1.1.length, ∃ e,
      (DeleteLocalAll w p).1 =
        some (GitTagError.bulkLocalError ((FindMany w p).1.1.get k) e) ∧
      (DeleteLocalAll w p).2.2 =
        GitCmd.tagL p :: ((FindMany w p).1.1.take (k.1 + 1)).map GitCmd.tagD) := by
  rcases deleteLocalEach_spec (FindMany w p).1.1 (FindMany w p).2.1 with ⟨h1, h2⟩ | ⟨k, e, h1, h2⟩
  · exact Or.inl ⟨by simp [DeleteLocalAll, h, h1],
      by simp [DeleteLocalAll, h, h1, h2, FindMany_trace]⟩
  · exact Or.inr ⟨k, e, by simp [DeleteLocalAll, h, h1],
      by simp [DeleteLocalAll, h, h2, FindMany_trace]⟩

theorem DeleteLocalAll_exact_sequence_witness :
    ((DeleteLocalAll (gitWorld ⟨["a", "b"], []⟩) "*").1 = none ∧
      (DeleteLocalAll (gitWorld ⟨["a", "b"], []⟩) "*").2.2 =
        GitCmd.tagL "*" ::
          (FindMany (gitWorld ⟨["a", "b"], []⟩) "*").1.1.map GitCmd.tagD) ∨
    (∃ k : Fin (FindMany (gitWorld ⟨["a", "b"], []⟩) "*").1.1.length, ∃ e,
      (DeleteLocalAll (gitWorld ⟨["a", "b"], []⟩) "*").1 =
        some (GitTagError.bulkLocalError
          ((FindMany (gitWorld ⟨["a", "b"], []⟩) "*").1.1.get k) e) ∧
      (DeleteLocalAll (gitWorld ⟨["a", "b"], []⟩) "*").2.2 =
        GitCmd.tagL "*" ::
          ((FindMany (gitWorld ⟨["a", "b"], []⟩) "*").1.1.take (k.1 + 1)).map GitCmd.tagD) :=
  DeleteLocalAll_exact_sequence (gitWorld ⟨["a", "b"], []⟩) "*" (by decide)


lemma splitNewline_empty : splitNewline "" = [""] := rfl

/-- C3: when the listing process succeeds but matches nothing (its trimmed
output is empty), `FindMany` fails with the not-found error while both
bulk deletions swallow the failed resolution and return success. -/
theorem zero_match_asymmetry (w : World) (p : String)
    (hok : (w.step w.state (GitCmd.tagL p)).1.exitOk = true)
    (hempty : trimSpace (w.step w.state (GitCmd.tagL p)).1.output = "") :
    (FindMany w p).1.2 = some GitTagError.notFoundError ∧
    (DeleteLocalAll w p).1 = none ∧
    (DeleteRemoteAll w p).1 = none := by
  have hfm : (FindMany w p).1.2 = some GitTagError.notFoundError := by
    simp [FindMany, World.run, hok, hempty, splitNewline_empty]
  refine ⟨hfm, ?_, ?_⟩
  · simp [DeleteLocalAll, hfm]
  · simp [DeleteRemoteAll, hfm]

theorem zero_match_asymmetry_witness :
    (FindMany (gitWorld ⟨[], []⟩) "*").1.2 = some GitTagError.notFoundError ∧
    (DeleteLocalAll (gitWorld ⟨[], []⟩) "*").1 = none ∧
    (DeleteRemoteAll (gitWorld ⟨[], []⟩) "*").1 = none :=
  zero_match_asymmetry (gitWorld ⟨[], []⟩) "*" (by decide) (by decide)


lemma splitOnChar_ne_nil (sep : Char) (cs : List Char) : splitOnChar sep cs ≠ [] := by
  cases cs with
  | nil => simp [splitOnChar]
  | cons c cs =>
    simp only [splitOnChar]
    split
    · simp
    · split <;> simp

lemma splitOnChar_eq_nilnil (sep : Char) (cs : List Char) :
    splitOnChar sep cs = [[]] ↔ cs = [] := by
  constructor
  · intro h
    cases cs with
    | nil => rfl
    | cons c cs =>
      exfalso
      simp only [splitOnChar] at h
      split at h
      · exact splitOnChar_ne_nil sep cs (by simpa using h)
      · split at h <;> simp_all
  · intro h
    subst h
    rfl

/-- The source's empty-listing check, a nil slice or a lone empty entry,
holds exactly when the trimmed listing output was empty. -/
lemma listing_empty_cond (s : String) :
    (splitNewline s = [] ∨
      ((splitNewline s).length = 1 ∧ (splitNewline s).head?.getD "" = "")) ↔
    s = "" := by
  have hs : s = "" ↔ s.toList = [] := by rw [String.ext_iff]; exact Iff.rfl
  rw [hs, ← splitOnChar_eq_nilnil '\n' s.toList]
  unfold splitNewline
  rcases hr : splitOnChar '\n' s.toList with _ | ⟨g, gs⟩
  · exact absurd hr (splitOnChar_ne_nil _ _)
  · cases gs with
    | nil => simp [String.ext_iff]
    | cons g2 gs2 => simp

/-- C6: `FindOne` captures the listing output, trims it, splits it on
newlines and returns the first entry; it fails exactly when the trimmed
listing is empty or the listing process exited non-zero, and every error
it returns falls in the spec's NotFoundError category. -/
theorem FindOne_parse_spec (w : World) (p : String) :
    ((FindOne w p).1.2 = none ↔
      ((w.step w.state (GitCmd.tagL p)).1.exitOk = true ∧
        trimSpace (w.step w.state (GitCmd.tagL p)).1.output ≠ "")) ∧
    (∀ e, (FindOne w p).1.2 = some e → isNotFound e = true) ∧
    ((w.step w.state (GitCmd.tagL p)).1.exitOk = true →
      trimSpace (w.step w.state (GitCmd.tagL p)).1.output ≠ "" →
      (FindOne w p).1.1 =
        (splitNewline (trimSpace (w.step w.state (GitCmd.tagL p)).1.output)).headD "") := by
  cases hok : (w.step w.state (GitCmd.tagL p)).1.exitOk with
  | false =>
    refine ⟨?_, ?_, ?_⟩
    · simp [FindOne, World.run, hok]
    · intro e he
      simp [FindOne, World.run, hok] at he
      simp [← he, isNotFound]
    · intro h1
      exact Bool.noConfusion h1
  | true =>
    by_cases hc : trimSpace (w.step w.state (GitCmd.tagL p)).1.output = ""
    · refine ⟨?_, ?_, ?_⟩
      · simp [FindOne, World.run, hok, listing_empty_cond, hc]
      · intro e he
        simp [FindOne, World.run, hok, listing_empty_cond, hc] at he
        simp [← he, isNotFound]
      · intro _ hne
        exact absurd hc hne
    · refine ⟨?_, ?_, ?_⟩
      · simp [FindOne, World.run, hok, listing_empty_cond, hc]
      · intro e he
        simp [FindOne, World.run, hok, listing_empty_cond, hc] at he
      · intro _ _
        simp [FindOne, World.run, hok, listing_empty_cond, hc]

theorem FindOne_parse_spec_witness :
    (FindOne (gitWorld ⟨["v1.0.0", "v2.0.0"], []⟩) "*").1.1 =
      (splitNewline (trimSpace ((gitWorld ⟨["v1.0.0", "v2.0.0"], []⟩).step
        (gitWorld ⟨["v1.0.0", "v2.0.0"], []⟩).state
        (GitCmd.tagL "*")).1.output)).headD "" :=
  (FindOne_parse_spec (gitWorld ⟨["v1.0.0", "v2.0.0"], []⟩) "*").2.2 (by decide) (by decide)

/-- C10: over the same world (hence the same listing output), `FindOne`
succeeds exactly when `FindMany` succeeds, and on success `FindOne`
returns the first element of the list `FindMany` returns. -/
theorem findOne_agrees_findMany (w : World) (p : String) :
    ((FindOne w p).1.2 = none ↔ (FindMany w p).1.2 = none) ∧
    ((FindMany w p).1.2 = none →
      (FindOne w p).1.1 = (FindMany w p).1.1.headD "") := by
  cases hok : (w.step w.state (GitCmd.tagL p)).1.exitOk with
  | false =>
    constructor
    · simp [FindOne, FindMany, World.run, hok]
    · intro h
      simp [FindMany, World.run, hok] at h
  | true =>
    by_cases hc : trimSpace (w.step w.state (GitCmd.tagL p)).1.output = ""
    · constructor
      · simp [FindOne, FindMany, World.run, hok, listing_empty_cond, hc]
      · intro h
        simp [FindMany, World.run, hok, listing_empty_cond, hc] at h
    · constructor
      · simp [FindOne, FindMany, World.run, hok, listing_empty_cond, hc]
      · intro _
        simp [FindOne, FindMany, World.run, hok, listing_empty_cond, hc]

theorem findOne_agrees_findMany_witness :
    (FindOne (gitWorld ⟨["a", "b"], []⟩) "*").1.1 =
      (FindMany (gitWorld ⟨["a", "b"], []⟩) "*").1.1.headD "" :=
  (findOne_agrees_findMany (gitWorld ⟨["a", "b"], []⟩) "*").2 (by decide)


/-- A glob pattern containing no star and no question mark matches exactly
the string equal to it. -/
lemma globMatchL_literal (ps : List Char)
    (h : ∀ c ∈ ps, c ≠ '*' ∧ c ≠ '?') :
    ∀ cs, (globMatchL ps cs = true ↔ ps = cs) := by
  induction ps with
  | nil =>
    intro cs
    cases cs <;> simp [globMatchL]
  | cons p ps ih =>
    intro cs
    have hp := h p (List.mem_cons_self p ps)
    have hps : ∀ c ∈ ps, c ≠ '*' ∧ c ≠ '?' :=
      fun c hc => h c (List.mem_cons_of_mem p hc)
    cases cs with
    | nil =>
      simp [globMatchL, hp.1]
    | cons c cs2 =>
      simp [globMatchL, hp.1, hp.2, ih hps cs2]

lemma globMatch_literal (t x : String)
    (h : ∀ c ∈ t.toList, c ≠ '*' ∧ c ≠ '?') :
    globMatch t x = true ↔ t = x := by
  unfold globMatch
  rw [globMatchL_literal t.toList h x.toList, String.ext_iff]
  exact Iff.rfl

lemma dropWhile_all_false {p : Char → Bool} {l : List Char}
    (h : ∀ c ∈ l, p c = false) : l.dropWhile p = l := by
  cases l with
  | nil => rfl
  | cons c cs => simp [List.dropWhile_cons, h c (List.mem_cons_self c cs)]

/-- Trimming is the identity on strings containing no whitespace. -/
lemma trimSpace_eq_self (t : String)
    (h : ∀ c ∈ t.toList, goIsSpace c = false) : trimSpace t = t := by
  unfold trimSpace
  rw [dropWhile_all_false h,
    dropWhile_all_false (fun c hc => h c (List.mem_reverse.mp hc)),
    List.reverse_reverse]
  rfl

/-- Splitting is the identity (one group) when the separator is absent. -/
lemma splitOnChar_no_sep (sep : Char) (cs : List Char)
    (h : ∀ c ∈ cs, (c == sep) = false) : splitOnChar sep cs = [cs] := by
  induction cs with
  | nil => rfl
  | cons c cs ih =>
    simp [splitOnChar, h c (List.mem_cons_self c cs),
      ih (fun d hd => h d (List.mem_cons_of_mem c hd))]

/-- C7: in the honest git environment, creating a local tag with a valid
fresh name and then looking it up by that exact name succeeds and returns
exactly that name. -/
theorem createLocal_then_findOne (s : GitState) (t : String)
    (hv : validTagName t = true)
    (hfresh : s.localTags.contains t = false) :
    (CreateLocal (gitWorld s) t []).1 = none ∧
    (FindOne (CreateLocal (gitWorld s) t []).2.1 t).1 = (t, none) := by
  have hmem : ¬t ∈ s.localTags := by simpa using hfresh
  simp only [validTagName, Bool.and_eq_true, List.all_eq_true] at hv
  obtain ⟨ht0b, hall⟩ := hv
  have ht0 : t ≠ "" := by simpa using ht0b
  have hsp : ∀ c ∈ t.toList, goIsSpace c = false := by
    intro c hc
    have hcc := hall c hc
    simp only [Bool.and_eq_true, Bool.not_eq_true'] at hcc
    exact hcc.1.1.1.1
  have hstar : ∀ c ∈ t.toList, c ≠ '*' ∧ c ≠ '?' := by
    intro c hc
    have hcc := hall c hc
    simp only [Bool.and_eq_true, Bool.not_eq_true'] at hcc
    exact ⟨beq_eq_false_iff_ne.mp hcc.1.1.1.2, beq_eq_false_iff_ne.mp hcc.1.1.2⟩
  have hnl : ∀ c ∈ t.toList, (c == '\n') = false := by
    intro c hc
    have hcc := hsp c hc
    simp only [goIsSpace, Bool.or_eq_false_iff] at hcc
    exact hcc.1.1.1.1.1.2
  have hcl : CreateLocal (gitWorld s) t [] =
      (none, gitWorld ⟨s.localTags ++ [t], s.remoteTags⟩,
        [GitCmd.tagA t (tagMessageOf t [])]) := by
    simp [CreateLocal, World.run, gitWorld, gitStep, hmem]
  have hfilter : (s.localTags ++ [t]).filter (fun x => globMatch t x) = [t] := by
    rw [List.filter_append]
    have h1 : s.localTags.filter (fun x => globMatch t x) = [] := by
      rw [List.filter_eq_nil_iff]
      intro a ha hga
      exact hmem (((globMatch_literal t a hstar).mp hga) ▸ ha)
    have h2 : [t].filter (fun x => globMatch t x) = [t] := by
      simp [List.filter, (globMatch_literal t t hstar).mpr rfl]
    rw [h1, h2]
    rfl
  have hsplit : splitNewline t = [t] := by
    unfold splitNewline
    rw [splitOnChar_no_sep '\n' t.toList hnl]
    rfl
  refine ⟨by simp [hcl], ?_⟩
  rw [hcl]
  simp [FindOne, World.run, gitWorld, gitStep, hfilter, joinLines,
    trimSpace_eq_self t hsp, hsplit, ht0]

theorem createLocal_then_findOne_witness :
    validTagName "v1.0.0" = true ∧
    ((CreateLocal (gitWorld ⟨["a"], []⟩) "v1.0.0" []).1 = none ∧
      (FindOne (CreateLocal (gitWorld ⟨["a"], []⟩) "v1.0.0" []).2.1 "v1.0.0").1 =
        ("v1.0.0", none)) :=
  ⟨by decide, createLocal_then_findOne ⟨["a"], []⟩ "v1.0.0" (by decide) (by decide)⟩

end GitTag
